import Mathlib

/-
Verification of the Wineceptor launcher (wineceptor.py).

The development is a shallow embedding of the source file. Filesystem
primitives (the PathUtils leaf component of the design: realpath, dirname,
basename, listdir, existence tests, the home directory, path joining) are
modelled as an abstract oracle structure FS: each concrete FS value is one
possible filesystem world, and theorems quantify over all of them.
Configuration files are modelled at the level the design fixes them: an
already-parsed document (ordered named sections, each an ordered list of
key/value string pairs); the low-level INI syntax is out of scope by design.
Shell execution (os.system) is modelled by an exit-status oracle
sh : String -> Int together with trace functions that return the list of
command strings handed to os.system, in order, exactly as the source emits
them.
-/

namespace Wineceptor

/-- A parsed configuration document: ordered named sections, each an ordered
list of key/value pairs, as produced by configparser.RawConfigParser. -/
structure IniFile where
  sections : List (String × List (String × String))
deriving DecidableEq, Repr

/-- Abstract filesystem oracle: one value models one filesystem state plus
the path-manipulation primitives of the PathUtils leaf component.
iniContent gives the parsed document obtained by opening a path and feeding
it to RawConfigParser.read_file. -/
structure FS where
  realpath : String → String
  dirname : String → String
  basename : String → String
  listdir : String → List String
  isfile : String → Bool
  isdir : String → Bool
  home : String
  joinPath : String → String → String
  iniContent : String → IniFile

/-- Errors raised by the source: ValueError and LookupError. -/
inductive WineceptorError where
  | valueError (msg : String)
  | lookupError (msg : String)
deriving DecidableEq, Repr

/-- Source constant INI_SUFFIX. -/
def INI_SUFFIX : String := ".wineceptor.ini"

/-- Source constant INI_BASENAME. -/
def INI_BASENAME : String := "wineceptor.ini"

/-- Source constant DEFAULT_WINE_PATH. -/
def DEFAULT_WINE_PATH : String := "wine"

/-- Source: get_real_path(executable) = os.path.realpath(executable). -/
def get_real_path (fs : FS) (executable : String) : String :=
  fs.realpath executable

/-- Source: get_directory(file_path) = os.path.dirname(file_path). -/
def get_directory (fs : FS) (file_path : String) : String :=
  fs.dirname file_path

/-- Source: get_basename(file_path) = os.path.basename(file_path). -/
def get_basename (fs : FS) (file_path : String) : String :=
  fs.basename file_path

/-- Source: get_files_in_directory(directory) = os.listdir(directory). -/
def get_files_in_directory (fs : FS) (directory : String) : List String :=
  fs.listdir directory

/-- Source: is_file(path) = os.path.isfile(path). -/
def is_file (fs : FS) (path : String) : Bool :=
  fs.isfile path

/-- Source: is_directory(path) = os.path.isdir(path). -/
def is_directory (fs : FS) (path : String) : Bool :=
  fs.isdir path

/-- Source: is_home_directory(directory) compares with os.path.expanduser. -/
def is_home_directory (fs : FS) (directory : String) : Bool :=
  directory == fs.home

/-- Source: join_file_path(prefix, filename) = os.path.join(prefix, filename). -/
def join_file_path (fs : FS) (a b : String) : String :=
  fs.joinPath a b

/-- Model of str.lower, the default optionxform of RawConfigParser:
lower-case every character. -/
def str_lower (s : String) : String :=
  ⟨s.toList.map Char.toLower⟩

/-- RawConfigParser.read_file followed by the key transformation the parser
applies to every option name (its optionxform; the default lower-cases, the
source overrides it with str in read_env_variables). Section names are never
transformed, values are never transformed. -/
def parser_read (optionxform : String → String) (file : IniFile) : IniFile :=
  ⟨file.sections.map (fun sect => (sect.1, sect.2.map (fun kv => (optionxform kv.1, kv.2))))⟩

/-- Lookup of a section by exact name, as configparser does (case-sensitive
section names); none models a raised NoSectionError on items/get. -/
def IniFile.findSection (file : IniFile) (name : String) : Option (List (String × String)) :=
  (file.sections.find? (fun sect => sect.1 == name)).map (fun sect => sect.2)

/-- config.get(sect, key): none models NoSectionError or NoOptionError. -/
def IniFile.getValue (file : IniFile) (sectName key : String) : Option String :=
  match file.findSection sectName with
  | none => none
  | some kvs => (kvs.find? (fun kv => kv.1 == key)).map (fun kv => kv.2)

/-- Source read_wine_path: config.get("WINE", "path") under the default
optionxform (lower-casing), with every configparser.Error mapped to
DEFAULT_WINE_PATH. -/
def read_wine_path (file : IniFile) : String :=
  let config := parser_read str_lower file
  match config.getValue "WINE" (str_lower "path") with
  | some value => value
  | none => DEFAULT_WINE_PATH

/-- Source find_wine_path: default when no wineceptor.ini is a direct child
of the prefix directory, otherwise read_wine_path on that file. -/
def find_wine_path (fs : FS) (winePfx : String) : String :=
  let files := (get_files_in_directory fs winePfx).map (fun file => get_basename fs file)
  if files.contains INI_BASENAME = false then
    DEFAULT_WINE_PATH
  else
    read_wine_path (fs.iniContent (join_file_path fs winePfx INI_BASENAME))

/-- Source read_env_variables: config.optionxform = str (the identity), then
one "KEY=VALUE" string per pair of section ENV in file order; a missing ENV
section (NoSectionError) yields the empty list. -/
def read_env_variables (file : IniFile) : List String :=
  let config := parser_read (fun key => key) file
  match config.findSection "ENV" with
  | some items => items.map (fun kv => kv.1 ++ "=" ++ kv.2)
  | none => []

/-- Source helper that find_prefix_env_variables and
find_executable_env_variables both call: raises LookupError when the file is
not a direct child of the directory, otherwise reads ENV from it. -/
def find_env_variables_in (fs : FS) (directory env_filename : String) :
    Except WineceptorError (List String) :=
  let files := (get_files_in_directory fs directory).map (fun file => get_basename fs file)
  if files.contains (get_basename fs env_filename) = false then
    .error (.lookupError "")
  else
    .ok (read_env_variables (fs.iniContent (join_file_path fs directory env_filename)))

/-- Source find_prefix_env_variables: ENV of wineceptor.ini inside the
prefix directory; LookupError is caught and yields the empty list. -/
def find_prefix_env_variables (fs : FS) (winePfx : String) : List String :=
  match find_env_variables_in fs winePfx INI_BASENAME with
  | .ok vars => vars
  | .error _ => []

/-- Source find_executable_env_variables: ENV of filename + INI_SUFFIX in
the directory of filename, for the filename exactly as passed in (the
source never canonicalizes here); LookupError yields the empty list. -/
def find_executable_env_variables (fs : FS) (filename : String) : List String :=
  match find_env_variables_in fs (get_directory fs filename) (filename ++ INI_SUFFIX) with
  | .ok vars => vars
  | .error _ => []

/-- Source read_execution_parameters: the values (keys discarded) of section
EXEC_PARAMS in file order, joined by a single space; any configparser.Error
yields the empty string. Default optionxform applies to keys only. -/
def read_execution_parameters (file : IniFile) : String :=
  let config := parser_read str_lower file
  match config.findSection "EXEC_PARAMS" with
  | some items => String.intercalate " " (items.map (fun kv => kv.2))
  | none => ""

/-- Source find_execution_parameters: empty string when executable +
INI_SUFFIX is not a direct child of the directory of executable, otherwise
read_execution_parameters of that file (the source opens ini_filename
itself, not a joined path). -/
def find_execution_parameters (fs : FS) (executable : String) : String :=
  let directory := get_directory fs executable
  let ini_filename := executable ++ INI_SUFFIX
  let files := (get_files_in_directory fs directory).map (fun file => get_basename fs file)
  if files.contains (get_basename fs ini_filename) = false then
    ""
  else
    read_execution_parameters (fs.iniContent ini_filename)

/-- Message of the LookupError raised when the search loop exhausts its
budget or reaches the home directory. -/
def lookup_error_message (max_search_depth : Int) : String :=
  "Could not find a wine prefix, tried with a " ++ toString max_search_depth ++ " depth"

/-- Message of the ValueError raised for a search depth below 1. -/
def invalid_depth_message (max_search_depth : Int) : String :=
  "Can not use a search depth less than 1, " ++ toString max_search_depth ++ " was passed"

/-- Source is_prefix_directory: the directory must have a direct child
directory literally named drive_c and a direct child file literally named
.update-timestamp. -/
def is_prefix_directory (fs : FS) (directory : String) : Bool :=
  let files := (get_files_in_directory fs directory).filter
    (fun each_file => is_file fs (join_file_path fs directory each_file))
  let directories := (get_files_in_directory fs directory).filter
    (fun each_directory => is_directory fs (join_file_path fs directory each_directory))
  directories.contains "drive_c" && files.contains ".update-timestamp"

/-- The while loop of find_wine_prefix. The loop condition and both loop
variables (directory, current_depth) follow the source; fuel is the number
of remaining iterations the Python condition current_depth <
max_search_depth still allows, supplied as max_search_depth.toNat at entry,
so the fuel-zero branch coincides with the condition-false branch and the
recursion is structural. Both loop exits (budget exhausted, home directory
reached) raise the same LookupError, matching the while/else of the source. -/
def find_wine_prefix_loop (fs : FS) (max_search_depth : Int) :
    String → Int → Nat → Except WineceptorError String
  | _, _, 0 =>
    .error (.lookupError (lookup_error_message max_search_depth))
  | directory, current_depth, fuel + 1 =>
    if current_depth < max_search_depth ∧ ¬ is_home_directory fs directory then
      if is_prefix_directory fs directory then
        .ok directory
      else
        find_wine_prefix_loop fs max_search_depth (get_directory fs directory)
          (current_depth + 1) fuel
    else
      .error (.lookupError (lookup_error_message max_search_depth))

/-- Number of loop-body entries performed by find_wine_prefix_loop: the
same recursion, counting one per executed iteration (including the
iteration whose test succeeds). -/
def find_wine_prefix_loop_count (fs : FS) (max_search_depth : Int) :
    String → Int → Nat → Nat
  | _, _, 0 => 0
  | directory, current_depth, fuel + 1 =>
    if current_depth < max_search_depth ∧ ¬ is_home_directory fs directory then
      if is_prefix_directory fs directory then
        1
      else
        find_wine_prefix_loop_count fs max_search_depth (get_directory fs directory)
          (current_depth + 1) fuel + 1
    else
      0

/-- Source find_wine_prefix: ValueError below depth 1, otherwise the upward
walk from the canonicalized containing directory of the executable. -/
def find_wine_prefix (fs : FS) (executable : String) (max_search_depth : Int) :
    Except WineceptorError String :=
  if max_search_depth < 1 then
    .error (.valueError (invalid_depth_message max_search_depth))
  else
    find_wine_prefix_loop fs max_search_depth
      (get_directory fs (get_real_path fs executable)) 0 max_search_depth.toNat

/-- Number of loop iterations the call performs (zero when the ValueError
guard fires before the walk starts). -/
def find_wine_prefix_iterations (fs : FS) (executable : String) (max_search_depth : Int) : Nat :=
  if max_search_depth < 1 then
    0
  else
    find_wine_prefix_loop_count fs max_search_depth
      (get_directory fs (get_real_path fs executable)) 0 max_search_depth.toNat

/-- The directory where the upward walk starts: the canonicalized
containing directory of the executable. -/
def exe_start_directory (fs : FS) (executable : String) : String :=
  get_directory fs (get_real_path fs executable)

/-- The i-th directory of the upward walk: i applications of get_directory. -/
def walk_directory (fs : FS) (d0 : String) : Nat → String
  | 0 => d0
  | i + 1 => get_directory fs (walk_directory fs d0 i)

/-- The source loop in run_commands_before_executable and
run_commands_after_executable: for command in commands: print; os.system.
The result is the list of commands handed to os.system in order; the exit
status sh command that os.system returns is discarded, so the iteration
continues unconditionally. -/
def run_shell_commands (sh : String → Int) : List String → List String
  | [] => []
  | command :: rest =>
    let _exit_status := sh command
    command :: run_shell_commands sh rest

/-- Source run_commands_before_executable: the BEFORE commands of
executable + INI_SUFFIX, each handed to os.system; no file or no BEFORE
section means no command runs. Returns the executed-command trace. -/
def run_commands_before_executable (fs : FS) (sh : String → Int) (executable : String) :
    List String :=
  let directory := get_directory fs executable
  let ini_filename := executable ++ INI_SUFFIX
  let files := (get_files_in_directory fs directory).map (fun file => get_basename fs file)
  if files.contains (get_basename fs ini_filename) = false then
    []
  else
    let config := parser_read str_lower (fs.iniContent ini_filename)
    match config.findSection "BEFORE" with
    | some items => run_shell_commands sh (items.map (fun kv => kv.2))
    | none => []

/-- Source run_commands_after_executable: same shape with section AFTER. -/
def run_commands_after_executable (fs : FS) (sh : String → Int) (executable : String) :
    List String :=
  let directory := get_directory fs executable
  let ini_filename := executable ++ INI_SUFFIX
  let files := (get_files_in_directory fs directory).map (fun file => get_basename fs file)
  if files.contains (get_basename fs ini_filename) = false then
    []
  else
    let config := parser_read str_lower (fs.iniContent ini_filename)
    match config.findSection "AFTER" with
    | some items => run_shell_commands sh (items.map (fun kv => kv.2))
    | none => []

/-- The single command string run_executable formats:
env WINEPREFIX="{prefix}" {env} {wine} start /unix "{exe}" {params}. -/
def launch_command (winePfx executable wine_path : String) (env_variables : List String)
    (execution_parameters : String) : String :=
  "env WINEPREFIX=\"" ++ winePfx ++ "\" " ++ String.intercalate " " env_variables ++ " "
    ++ wine_path ++ " start /unix \"" ++ executable ++ "\" " ++ execution_parameters

/-- Source run_executable: prints the formatted command and hands it to
os.system exactly once; the exit status is discarded. Returns the
executed-command trace. -/
def run_executable (sh : String → Int) (executable winePfx : String)
    (env_variables : List String) (wine_path execution_parameters : String) : List String :=
  let command := launch_command winePfx executable wine_path env_variables execution_parameters
  let _exit_status := sh command
  [command]

/-- The env-variable list main passes to run_executable:
find_prefix_env_variables(prefix) + find_executable_env_variables(executable). -/
def resolved_env_variables (fs : FS) (winePfx executable : String) : List String :=
  find_prefix_env_variables fs winePfx ++ find_executable_env_variables fs executable

/-- The ordered list of command strings main hands to os.system for one
invocation: find_wine_prefix with max_search_depth = 15, then the BEFORE
commands, the single launch command, and the AFTER commands; any raised
error is caught in main and produces no command at all. -/
def main_command_trace (fs : FS) (sh : String → Int) (executable : String) : List String :=
  match find_wine_prefix fs executable 15 with
  | .error _ => []
  | .ok winePfx =>
    run_commands_before_executable fs sh executable
      ++ run_executable sh executable winePfx (resolved_env_variables fs winePfx executable)
           (find_wine_path fs winePfx) (find_execution_parameters fs executable)
      ++ run_commands_after_executable fs sh executable

/-
Concrete PathUtils implementations, used to build witness filesystems.
They model the POSIX behavior of os.path.dirname, os.path.basename and
os.path.join for the paths that occur in the witnesses.
-/

/-- Drop trailing slash characters. -/
def rstrip_slashes (cs : List Char) : List Char :=
  (cs.reverse.dropWhile (fun c => c == '/')).reverse

/-- os.path.dirname: everything before the final slash, with trailing
slashes stripped unless the result consists of slashes only. -/
def posix_dirname (p : String) : String :=
  let cs := p.toList
  match cs.reverse.findIdx? (fun c => c == '/') with
  | none => ""
  | some r =>
    let head := cs.take (cs.length - r)
    if head.all (fun c => c == '/') then ⟨head⟩ else ⟨rstrip_slashes head⟩

/-- os.path.basename: everything after the final slash. -/
def posix_basename (p : String) : String :=
  ⟨(p.toList.reverse.takeWhile (fun c => ¬ c == '/')).reverse⟩

/-- os.path.join for the cases exercised here: an absolute second segment
replaces the first, otherwise the segments are joined with a slash. -/
def posix_join (a b : String) : String :=
  if b.toList.head? = some '/' then b
  else if a = "" then b
  else if a.toList.getLast? = some '/' then a ++ b
  else a ++ "/" ++ b

/-- Witness world: /p/d is a wine prefix root (direct children drive_c and
.update-timestamp) containing app.exe and, with content ini, the
executable-scope file app.exe.wineceptor.ini; the home directory is
elsewhere. -/
def simple_fs (ini : IniFile) : FS where
  realpath := fun p => p
  dirname := posix_dirname
  basename := posix_basename
  listdir := fun d =>
    if d = "/p/d" then ["app.exe", "app.exe.wineceptor.ini", "drive_c", ".update-timestamp"]
    else []
  isfile := fun p =>
    p == "/p/d/app.exe" || p == "/p/d/app.exe.wineceptor.ini" || p == "/p/d/.update-timestamp"
  isdir := fun p => p == "/p/d/drive_c"
  home := "/home/user"
  joinPath := posix_join
  iniContent := fun p => if p = "/p/d/app.exe.wineceptor.ini" then ini else ⟨[]⟩

/-- Witness world with no configuration file anywhere: /p/d is a prefix
root holding only the executable and the two marker children. -/
def bare_fs : FS where
  realpath := fun p => p
  dirname := posix_dirname
  basename := posix_basename
  listdir := fun d =>
    if d = "/p/d" then ["app.exe", "drive_c", ".update-timestamp"] else []
  isfile := fun p => p == "/p/d/app.exe" || p == "/p/d/.update-timestamp"
  isdir := fun p => p == "/p/d/drive_c"
  home := "/home/user"
  joinPath := posix_join
  iniContent := fun _ => ⟨[]⟩

/-- Witness world where both scopes declare the same variable FOO: the
prefix directory /p/d carries wineceptor.ini and the executable carries
app.exe.wineceptor.ini. -/
def c7fs : FS where
  realpath := fun p => p
  dirname := posix_dirname
  basename := posix_basename
  listdir := fun d =>
    if d = "/p/d" then
      ["app.exe", "app.exe.wineceptor.ini", "wineceptor.ini", "drive_c", ".update-timestamp"]
    else []
  isfile := fun p =>
    p == "/p/d/app.exe" || p == "/p/d/app.exe.wineceptor.ini"
      || p == "/p/d/wineceptor.ini" || p == "/p/d/.update-timestamp"
  isdir := fun p => p == "/p/d/drive_c"
  home := "/home/user"
  joinPath := posix_join
  iniContent := fun p =>
    if p = "/p/d/wineceptor.ini" then ⟨[("ENV", [("FOO", "pfxval")])]⟩
    else if p = "/p/d/app.exe.wineceptor.ini" then ⟨[("ENV", [("FOO", "exeval")])]⟩
    else ⟨[]⟩

/-- The executable-scope configuration lookup as the specification words
it: the path is canonicalized first (resolution follows symlinks) and the
config file is the canonical filename plus INI_SUFFIX next to the
canonical executable. Stated from the specification for comparison with
the source function find_executable_env_variables. -/
def find_executable_env_variables_per_spec (fs : FS) (filename : String) : List String :=
  let canonical := get_real_path fs filename
  match find_env_variables_in fs (get_directory fs canonical) (canonical ++ INI_SUFFIX) with
  | .ok vars => vars
  | .error _ => []

/-- The executed-command list the specification words demand: execution
stops at the first command whose exit status is non-zero, never running
subsequent entries. Stated from the specification for comparison with the
unconditional execution of the source. -/
def fail_fast_executed_commands (sh : String → Int) : List String → List String
  | [] => []
  | command :: rest =>
    if sh command = 0 then command :: fail_fast_executed_commands sh rest
    else [command]

/-- Counterexample world for the canonicalization claim: /links/app.exe is
a symlink whose target is /real/app.exe; both directories carry an
executable-scope config file, with different ENV values. -/
def c9fs : FS where
  realpath := fun p => if p = "/links/app.exe" then "/real/app.exe" else p
  dirname := posix_dirname
  basename := posix_basename
  listdir := fun d =>
    if d = "/links" then ["app.exe", "app.exe.wineceptor.ini"]
    else if d = "/real" then ["app.exe", "app.exe.wineceptor.ini"]
    else []
  isfile := fun _ => false
  isdir := fun _ => false
  home := "/home/user"
  joinPath := posix_join
  iniContent := fun p =>
    if p = "/links/app.exe.wineceptor.ini" then ⟨[("ENV", [("WINEDEBUG", "link")])]⟩
    else if p = "/real/app.exe.wineceptor.ini" then ⟨[("ENV", [("WINEDEBUG", "real")])]⟩
    else ⟨[]⟩

/-
Helper lemmas.
-/

theorem walk_directory_zero (fs : FS) (d0 : String) :
    walk_directory fs d0 0 = d0 := rfl

theorem walk_directory_shift (fs : FS) (d0 : String) (i : Nat) :
    walk_directory fs (get_directory fs d0) i = walk_directory fs d0 (i + 1) := by
  induction i with
  | zero => rfl
  | succ i ih => simp [walk_directory, ih]

theorem run_shell_commands_eq (sh : String → Int) (cmds : List String) :
    run_shell_commands sh cmds = cmds := by
  induction cmds with
  | nil => rfl
  | cons command rest ih => simp [run_shell_commands, ih]

theorem parser_read_id (file : IniFile) :
    parser_read (fun key => key) file = file := by
  cases file with
  | mk secs => simp [parser_read]

theorem findSection_parser_read (f : String → String) (file : IniFile) (name : String) :
    (parser_read f file).findSection name =
      (file.findSection name).map (fun kvs => kvs.map (fun kv => (f kv.1, kv.2))) := by
  cases file with
  | mk secs =>
    induction secs with
    | nil => rfl
    | cons head tail ih =>
      by_cases h : head.1 == name
      · simp [IniFile.findSection, parser_read, List.find?, h]
      · simp only [IniFile.findSection, parser_read, List.map_cons, List.find?, h,
          Bool.false_eq_true, if_false] at ih ⊢
        exact ih

theorem find_wine_prefix_loop_found (fs : FS) (max_search_depth : Int) :
    ∀ (i : Nat) (directory : String) (current_depth : Int) (fuel : Nat),
      current_depth + i < max_search_depth →
      i < fuel →
      (∀ j : Nat, j ≤ i → ¬ is_home_directory fs (walk_directory fs directory j)) →
      (∀ j : Nat, j < i → is_prefix_directory fs (walk_directory fs directory j) = false) →
      is_prefix_directory fs (walk_directory fs directory i) = true →
      find_wine_prefix_loop fs max_search_depth directory current_depth fuel =
        .ok (walk_directory fs directory i) := by
  intro i
  induction i with
  | zero =>
    intro directory current_depth fuel hdepth hfuel hhome _hq hqi
    obtain ⟨f, rfl⟩ : ∃ f, fuel = f + 1 := ⟨fuel - 1, by omega⟩
    rw [ find_wine_prefix_loop]
    rw [if_pos ⟨by omega, hhome 0 (Nat.le_refl 0)⟩,
      if_pos (show is_prefix_directory fs directory = true from hqi)]
    rfl
  | succ i ih =>
    intro directory current_depth fuel hdepth hfuel hhome hq hqi
    obtain ⟨f, rfl⟩ : ∃ f, fuel = f + 1 := ⟨fuel - 1, by omega⟩
    rw [ find_wine_prefix_loop]
    rw [if_pos ⟨by omega, hhome 0 (Nat.zero_le _)⟩,
      if_neg (by simp [show is_prefix_directory fs directory = false from
        hq 0 (Nat.succ_pos i)])]
    rw [show walk_directory fs directory (i + 1) =
      walk_directory fs (get_directory fs directory) i from (walk_directory_shift ..).symm]
    apply ih
    · omega
    · omega
    · intro j hj
      rw [walk_directory_shift]
      exact hhome (j + 1) (by omega)
    · intro j hj
      rw [walk_directory_shift]
      exact hq (j + 1) (by omega)
    · rw [walk_directory_shift]
      exact hqi

theorem find_wine_prefix_loop_not_found (fs : FS) (max_search_depth : Int) :
    ∀ (fuel : Nat) (directory : String) (current_depth : Int),
      (∀ i : Nat, current_depth + i < max_search_depth →
        (∀ j : Nat, j ≤ i → ¬ is_home_directory fs (walk_directory fs directory j)) →
        is_prefix_directory fs (walk_directory fs directory i) = false) →
      find_wine_prefix_loop fs max_search_depth directory current_depth fuel =
        .error (.lookupError (lookup_error_message max_search_depth)) := by
  intro fuel
  induction fuel with
  | zero => intro directory current_depth _h; rfl
  | succ f ih =>
    intro directory current_depth H
    rw [ find_wine_prefix_loop]
    by_cases hcond : current_depth < max_search_depth ∧ ¬ is_home_directory fs directory
    · have h0 : is_prefix_directory fs directory = false := by
        have := H 0 (by omega) (fun j hj => by
          interval_cases j
          exact hcond.2)
        exact this
      rw [if_pos hcond, if_neg (by simp [h0])]
      apply ih
      intro i hdepth hhome
      rw [walk_directory_shift]
      apply H (i + 1) (by omega)
      intro j hj
      match j with
      | 0 => exact hcond.2
      | j + 1 =>
        rw [← walk_directory_shift]
        exact hhome j (by omega)
    · rw [if_neg hcond]

theorem find_wine_prefix_loop_count_le (fs : FS) (max_search_depth : Int) :
    ∀ (fuel : Nat) (directory : String) (current_depth : Int),
      find_wine_prefix_loop_count fs max_search_depth directory current_depth fuel ≤ fuel := by
  intro fuel
  induction fuel with
  | zero => intro directory current_depth; exact Nat.le_refl 0
  | succ f ih =>
    intro directory current_depth
    rw [ find_wine_prefix_loop_count]
    by_cases hcond : current_depth < max_search_depth ∧ ¬ is_home_directory fs directory
    · rw [if_pos hcond]
      by_cases hq : is_prefix_directory fs directory
      · rw [if_pos hq]; omega
      · rw [if_neg hq]
        have := ih (get_directory fs directory) (current_depth + 1)
        omega
    · rw [if_neg hcond]; omega

/-
Claim theorems.
-/

/-- C1: for every filesystem, executable path and maxDepth at least 1, the
walk starts at the canonicalized containing directory of the executable;
if the i-th upward ancestor (i below maxDepth) is a prefix root, no nearer
ancestor is one, and the home directory was not reached at or before step
i, then find_wine_prefix returns exactly that nearest qualifying ancestor
(first part); if no ancestor tested under these loop conditions qualifies,
it fails with the LookupError naming the configured depth (second part);
and reaching the home directory stops the walk before the home directory
itself is ever tested, so even a structurally qualifying home directory
yields the LookupError (third part). -/
theorem c1_locate_nearest_qualifying (fs : FS) (executable : String)
    (max_search_depth : Int) (hmax : 1 ≤ max_search_depth) :
    (∀ i : Nat, (i : Int) < max_search_depth →
      (∀ j : Nat, j ≤ i →
        ¬ is_home_directory fs (walk_directory fs (exe_start_directory fs executable) j)) →
      (∀ j : Nat, j < i →
        is_prefix_directory fs (walk_directory fs (exe_start_directory fs executable) j) = false) →
      is_prefix_directory fs (walk_directory fs (exe_start_directory fs executable) i) = true →
      find_wine_prefix fs executable max_search_depth =
        .ok (walk_directory fs (exe_start_directory fs executable) i)) ∧
    ((∀ i : Nat, (i : Int) < max_search_depth →
      (∀ j : Nat, j ≤ i →
        ¬ is_home_directory fs (walk_directory fs (exe_start_directory fs executable) j)) →
      is_prefix_directory fs (walk_directory fs (exe_start_directory fs executable) i) = false) →
      find_wine_prefix fs executable max_search_depth =
        .error (.lookupError (lookup_error_message max_search_depth))) ∧
    (∀ k : Nat, (k : Int) < max_search_depth →
      (∀ j : Nat, j < k →
        ¬ is_home_directory fs (walk_directory fs (exe_start_directory fs executable) j) ∧
        is_prefix_directory fs (walk_directory fs (exe_start_directory fs executable) j) = false) →
      is_home_directory fs (walk_directory fs (exe_start_directory fs executable) k) →
      find_wine_prefix fs executable max_search_depth =
        .error (.lookupError (lookup_error_message max_search_depth))) := by
  have hnotfound : (∀ i : Nat, (i : Int) < max_search_depth →
      (∀ j : Nat, j ≤ i →
        ¬ is_home_directory fs (walk_directory fs (exe_start_directory fs executable) j)) →
      is_prefix_directory fs (walk_directory fs (exe_start_directory fs executable) i) = false) →
      find_wine_prefix fs executable max_search_depth =
        .error (.lookupError (lookup_error_message max_search_depth)) := by
    intro H
    simp only [ find_wine_prefix]
    rw [if_neg (by omega)]
    exact find_wine_prefix_loop_not_found fs max_search_depth max_search_depth.toNat
      (exe_start_directory fs executable) 0 (fun i hi hhome => H i (by omega) hhome)
  refine ⟨?_, hnotfound, ?_⟩
  · intro i hi hhome hq hqi
    simp only [ find_wine_prefix]
    rw [if_neg (by omega)]
    exact find_wine_prefix_loop_found fs max_search_depth i
      (exe_start_directory fs executable) 0 max_search_depth.toNat
      (by omega) (by omega) hhome hq hqi
  · intro k hk hchain hhomek
    apply hnotfound
    intro i _hi hhomei
    by_cases hik : i < k
    · exact (hchain i hik).2
    · exact (hhomei k (by omega) hhomek).elim

/-- C1 witness: in the concrete world simple_fs, /p/d qualifies at walk
index 0 and the search returns it. -/
theorem c1_witness :
    find_wine_prefix (simple_fs ⟨[]⟩) "/p/d/app.exe" 15 = .ok "/p/d" :=
  (c1_locate_nearest_qualifying (simple_fs ⟨[]⟩) "/p/d/app.exe" 15 (by decide)).1 0
    (by decide) (by decide) (by decide) (by decide)

/-- C4: for every filesystem and executable and every maxDepth below 1,
find_wine_prefix fails with the ValueError naming the passed depth and
performs zero loop iterations, hence no filesystem walk. -/
theorem c4_invalid_search_depth (fs : FS) (executable : String)
    (max_search_depth : Int) (h : max_search_depth < 1) :
    find_wine_prefix fs executable max_search_depth =
      .error (.valueError (invalid_depth_message max_search_depth)) ∧
    find_wine_prefix_iterations fs executable max_search_depth = 0 := by
  constructor
  · simp only [ find_wine_prefix]
    rw [if_pos h]
  · simp only [ find_wine_prefix_iterations]
    rw [if_pos h]

/-- C4 witness: depth 0 on a concrete world. -/
theorem c4_witness :
    find_wine_prefix bare_fs "/p/d/app.exe" 0 =
      .error (.valueError (invalid_depth_message 0)) ∧
    find_wine_prefix_iterations bare_fs "/p/d/app.exe" 0 = 0 :=
  c4_invalid_search_depth bare_fs "/p/d/app.exe" 0 (by decide)

/-- C10: the search loop always terminates; for every filesystem (including
one whose root is its own parent) and every maxDepth at least 1 the number
of executed loop iterations is at most maxDepth, because each iteration
increases the step counter by one and the loop condition keeps it below
maxDepth. -/
theorem c10_iterations_bounded (fs : FS) (executable : String)
    (max_search_depth : Int) (hmax : 1 ≤ max_search_depth) :
    (find_wine_prefix_iterations fs executable max_search_depth : Int) ≤ max_search_depth := by
  have h := find_wine_prefix_loop_count_le fs max_search_depth max_search_depth.toNat
    (get_directory fs (get_real_path fs executable)) 0
  simp only [ find_wine_prefix_iterations]
  rw [if_neg (by omega)]
  omega

/-- C10 witness: concrete bound at depth 15. -/
theorem c10_witness :
    (find_wine_prefix_iterations (simple_fs ⟨[]⟩) "/p/d/app.exe" 15 : Int) ≤ 15 :=
  c10_iterations_bounded (simple_fs ⟨[]⟩) "/p/d/app.exe" 15 (by decide)

/-- C5: every extraction operation returns its documented default when its
source is missing. With no prefix-scope config file and no executable-scope
config file the six resolvers return wine, [], [], the empty string, and
empty hook traces; and independently of any file, a missing WINE.path key,
a missing ENV section, a missing EXEC_PARAMS section, a missing BEFORE
section and a missing AFTER section each yield the documented default,
never an error value. -/
theorem c5_missing_defaults (fs : FS) (sh : String → Int) (winePfx executable : String)
    (h1 : ((get_files_in_directory fs winePfx).map
      (fun file => get_basename fs file)).contains INI_BASENAME = false)
    (h1b : ((get_files_in_directory fs winePfx).map
      (fun file => get_basename fs file)).contains (get_basename fs INI_BASENAME) = false)
    (h2 : ((get_files_in_directory fs (get_directory fs executable)).map
      (fun file => get_basename fs file)).contains
        (get_basename fs (executable ++ INI_SUFFIX)) = false) :
    find_wine_path fs winePfx = DEFAULT_WINE_PATH ∧
    find_prefix_env_variables fs winePfx = [] ∧
    find_executable_env_variables fs executable = [] ∧
    find_execution_parameters fs executable = "" ∧
    run_commands_before_executable fs sh executable = [] ∧
    run_commands_after_executable fs sh executable = [] ∧
    (∀ ini : IniFile, (parser_read str_lower ini).getValue "WINE" (str_lower "path") = none →
      read_wine_path ini = DEFAULT_WINE_PATH) ∧
    (∀ ini : IniFile, ini.findSection "ENV" = none → read_env_variables ini = []) ∧
    (∀ ini : IniFile, ini.findSection "EXEC_PARAMS" = none →
      read_execution_parameters ini = "") ∧
    (∀ (fs2 : FS) (sh2 : String → Int) (exe2 : String),
      (fs2.iniContent (exe2 ++ INI_SUFFIX)).findSection "BEFORE" = none →
      run_commands_before_executable fs2 sh2 exe2 = []) ∧
    (∀ (fs2 : FS) (sh2 : String → Int) (exe2 : String),
      (fs2.iniContent (exe2 ++ INI_SUFFIX)).findSection "AFTER" = none →
      run_commands_after_executable fs2 sh2 exe2 = []) := by
  refine ⟨?_, ?_, ?_, ?_, ?_, ?_, ?_, ?_, ?_, ?_, ?_⟩
  · simp only [find_wine_path]
    rw [if_pos h1]
  · simp only [find_prefix_env_variables, find_env_variables_in]
    rw [if_pos h1b]
  · simp only [find_executable_env_variables, find_env_variables_in]
    rw [if_pos h2]
  · simp only [find_execution_parameters]
    rw [if_pos h2]
  · simp only [run_commands_before_executable]
    rw [if_pos h2]
  · simp only [run_commands_after_executable]
    rw [if_pos h2]
  · intro ini h
    simp only [read_wine_path]
    rw [h]
  · intro ini h
    simp only [read_env_variables]
    rw [parser_read_id, h]
  · intro ini h
    simp only [read_execution_parameters]
    rw [findSection_parser_read, h]
    rfl
  · intro fs2 sh2 exe2 h
    simp only [run_commands_before_executable]
    by_cases hc : ((get_files_in_directory fs2 (get_directory fs2 exe2)).map
      (fun file => get_basename fs2 file)).contains
        (get_basename fs2 (exe2 ++ INI_SUFFIX)) = false
    · rw [if_pos hc]
    · rw [if_neg hc, findSection_parser_read, h]
      rfl
  · intro fs2 sh2 exe2 h
    simp only [run_commands_after_executable]
    by_cases hc : ((get_files_in_directory fs2 (get_directory fs2 exe2)).map
      (fun file => get_basename fs2 file)).contains
        (get_basename fs2 (exe2 ++ INI_SUFFIX)) = false
    · rw [if_pos hc]
    · rw [if_neg hc, findSection_parser_read, h]
      rfl

/-- C5 witness: a world with no configuration file anywhere. -/
theorem c5_witness :
    find_wine_path bare_fs "/p/d" = DEFAULT_WINE_PATH ∧
    find_prefix_env_variables bare_fs "/p/d" = [] ∧
    find_executable_env_variables bare_fs "/p/d/app.exe" = [] ∧
    find_execution_parameters bare_fs "/p/d/app.exe" = "" ∧
    run_commands_before_executable bare_fs (fun _ => 0) "/p/d/app.exe" = [] ∧
    run_commands_after_executable bare_fs (fun _ => 0) "/p/d/app.exe" = [] := by
  have h := c5_missing_defaults bare_fs (fun _ => 0) "/p/d" "/p/d/app.exe"
    (by decide) (by decide) (by decide)
  exact ⟨h.1, h.2.1, h.2.2.1, h.2.2.2.1, h.2.2.2.2.1, h.2.2.2.2.2.1⟩

/-- C6: when the (already key-preserving) parse of a config file has an ENV
section, read_env_variables emits one KEY=VALUE string per pair, with the
keys exactly as written (the source sets optionxform to str, the identity,
so no lower-casing happens) and in file declaration order. -/
theorem c6_env_key_casing_preserved (ini : IniFile) (kvs : List (String × String))
    (h : ini.findSection "ENV" = some kvs) :
    read_env_variables ini = kvs.map (fun kv => kv.1 ++ "=" ++ kv.2) := by
  simp [read_env_variables, parser_read_id, h]

/-- C6 witness: mixed-case keys survive unchanged, in order. -/
theorem c6_witness :
    read_env_variables ⟨[("ENV", [("MiXeD", "1"), ("lower", "2")])]⟩ =
      ["MiXeD=1", "lower=2"] :=
  c6_env_key_casing_preserved ⟨[("ENV", [("MiXeD", "1"), ("lower", "2")])]⟩
    [("MiXeD", "1"), ("lower", "2")] (by decide)

/-- C7: the merged environment list main builds is exactly the prefix-scope
list followed by the executable-scope list, concatenated without
deduplication: the length is the sum of both lengths, every prefix-scope
entry keeps its index, every executable-scope entry lands after the whole
prefix-scope list, so of two entries for the same key the executable-scope
one appears strictly later. -/
theorem c7_env_merge_order (fs : FS) (winePfx executable : String) :
    resolved_env_variables fs winePfx executable =
      find_prefix_env_variables fs winePfx ++ find_executable_env_variables fs executable ∧
    (resolved_env_variables fs winePfx executable).length =
      (find_prefix_env_variables fs winePfx).length +
        (find_executable_env_variables fs executable).length ∧
    (∀ (entry1 entry2 : String) (i j : Nat),
      (find_prefix_env_variables fs winePfx).get? i = some entry1 →
      (find_executable_env_variables fs executable).get? j = some entry2 →
      (resolved_env_variables fs winePfx executable).get? i = some entry1 ∧
      (resolved_env_variables fs winePfx executable).get?
        ((find_prefix_env_variables fs winePfx).length + j) = some entry2 ∧
      i < (find_prefix_env_variables fs winePfx).length + j) := by
  refine ⟨rfl, by simp [resolved_env_variables], ?_⟩
  intro entry1 entry2 i j h1 h2
  have hi : i < (find_prefix_env_variables fs winePfx).length := by
    by_contra hcon
    rw [List.get?_eq_none.mpr (by omega)] at h1
    exact absurd h1 (by simp)
  refine ⟨?_, ?_, by omega⟩
  · simp only [resolved_env_variables]
    rw [List.get?_append hi]
    exact h1
  · simp only [resolved_env_variables]
    rw [List.get?_append_right (by omega)]
    simpa using h2

/-- C7 witness: both scopes declare FOO; the executable-scope entry appears
at the later index. -/
theorem c7_witness :
    (resolved_env_variables c7fs "/p/d" "/p/d/app.exe").get? 0 = some "FOO=pfxval" ∧
    (resolved_env_variables c7fs "/p/d" "/p/d/app.exe").get? 1 = some "FOO=exeval" ∧
    0 < 1 :=
  (c7_env_merge_order c7fs "/p/d" "/p/d/app.exe").2.2 "FOO=pfxval" "FOO=exeval" 0 0
    (by decide) (by decide)

/-- C8: with an executable-scope config file present whose parse has an
EXEC_PARAMS section, find_execution_parameters returns the section values
(keys discarded) in file order joined by single spaces; with the file
absent, or with no EXEC_PARAMS section, it returns the empty string. -/
theorem c8_execution_parameters (fs : FS) (executable : String) :
    (∀ kvs : List (String × String),
      ((get_files_in_directory fs (get_directory fs executable)).map
        (fun file => get_basename fs file)).contains
          (get_basename fs (executable ++ INI_SUFFIX)) = true →
      (fs.iniContent (executable ++ INI_SUFFIX)).findSection "EXEC_PARAMS" = some kvs →
      find_execution_parameters fs executable =
        String.intercalate " " (kvs.map (fun kv => kv.2))) ∧
    (((get_files_in_directory fs (get_directory fs executable)).map
        (fun file => get_basename fs file)).contains
          (get_basename fs (executable ++ INI_SUFFIX)) = false →
      find_execution_parameters fs executable = "") ∧
    ((fs.iniContent (executable ++ INI_SUFFIX)).findSection "EXEC_PARAMS" = none →
      find_execution_parameters fs executable = "") := by
  refine ⟨?_, ?_, ?_⟩
  · intro kvs hfile hsec
    simp only [find_execution_parameters]
    rw [if_neg (by rw [hfile]; simp)]
    simp only [read_execution_parameters]
    rw [findSection_parser_read, hsec]
    show " ".intercalate (List.map (fun kv => kv.2)
      (kvs.map (fun kv => (str_lower kv.1, kv.2)))) = _
    rw [List.map_map]
    rfl
  · intro h
    simp only [find_execution_parameters]
    rw [if_pos h]
  · intro h
    simp only [find_execution_parameters]
    by_cases hc : ((get_files_in_directory fs (get_directory fs executable)).map
      (fun file => get_basename fs file)).contains
        (get_basename fs (executable ++ INI_SUFFIX)) = false
    · rw [if_pos hc]
    · rw [if_neg hc]
      simp only [read_execution_parameters]
      rw [findSection_parser_read, h]
      rfl

/-- C8 witness: values -a then -b give the string "-a -b". -/
theorem c8_witness :
    find_execution_parameters (simple_fs ⟨[("EXEC_PARAMS", [("a", "-a"), ("b", "-b")])]⟩)
      "/p/d/app.exe" = "-a -b" :=
  (c8_execution_parameters (simple_fs ⟨[("EXEC_PARAMS", [("a", "-a"), ("b", "-b")])]⟩)
    "/p/d/app.exe").1 [("a", "-a"), ("b", "-b")] (by decide) (by decide)

/-- Config for the hook-ordering worlds: one BEFORE command and one AFTER
command. -/
def c2ini : IniFile :=
  ⟨[("BEFORE", [("1", "cmd1")]), ("AFTER", [("1", "cmd2")])]⟩

/-- C2 counterexample: in a world with BEFORE = cmd1 and AFTER = cmd2, the
executed sequence is exactly [cmd1, launch, cmd2]: three commands, with the
after-hook directly following the launch command, so no synchronization
command waiting on the runtime server exists anywhere in the sequence,
contradicting the claimed [cmd1, L, S, cmd2]. -/
theorem c2_counterexample :
    main_command_trace (simple_fs c2ini) (fun _ => 0) "/p/d/app.exe" =
      ["cmd1", launch_command "/p/d" "/p/d/app.exe" "wine" [] "", "cmd2"] ∧
    (main_command_trace (simple_fs c2ini) (fun _ => 0) "/p/d/app.exe").length = 3 := by
  refine ⟨by decide, by decide⟩

/-- C2 as amended: the composed command sequence is all before-hook commands
verbatim in resolved order, then exactly one launch command, then all
after-hook commands verbatim in resolved order, with no synchronization
command in between: the source never emits a command that waits for the
runtime server. -/
theorem c2_amended_sequence (fs : FS) (sh : String → Int) (executable winePfx : String)
    (h : find_wine_prefix fs executable 15 = .ok winePfx) :
    main_command_trace fs sh executable =
      run_commands_before_executable fs sh executable ++
      launch_command winePfx executable (find_wine_path fs winePfx)
        (resolved_env_variables fs winePfx executable)
        (find_execution_parameters fs executable) ::
      run_commands_after_executable fs sh executable := by
  simp only [main_command_trace]
  rw [h]
  simp [run_executable]

/-- C2 witness: the amended sequence at the concrete hook world. -/
theorem c2_witness :
    main_command_trace (simple_fs c2ini) (fun _ => 0) "/p/d/app.exe" =
      run_commands_before_executable (simple_fs c2ini) (fun _ => 0) "/p/d/app.exe" ++
      launch_command "/p/d" "/p/d/app.exe" (find_wine_path (simple_fs c2ini) "/p/d")
        (resolved_env_variables (simple_fs c2ini) "/p/d" "/p/d/app.exe")
        (find_execution_parameters (simple_fs c2ini) "/p/d/app.exe") ::
      run_commands_after_executable (simple_fs c2ini) (fun _ => 0) "/p/d/app.exe" :=
  c2_amended_sequence (simple_fs c2ini) (fun _ => 0) "/p/d/app.exe" "/p/d" (by rfl)

/-- Config for the fail-fast counterexample: the before-hook command false
fails, an after-hook follows. -/
def c3ini : IniFile :=
  ⟨[("BEFORE", [("1", "false")]), ("AFTER", [("1", "cmd2")])]⟩

/-- Exit-status oracle under which the command false exits 1 and everything
else exits 0. -/
def c3sh : String → Int :=
  fun command => if command = "false" then 1 else 0

/-- C3 counterexample: the first executed command exits non-zero, yet the
full three-command sequence still executes; under the claimed AND-chain
semantics execution would have stopped after the first command. -/
theorem c3_counterexample :
    c3sh "false" ≠ 0 ∧
    (main_command_trace (simple_fs c3ini) c3sh "/p/d/app.exe").head? = some "false" ∧
    (main_command_trace (simple_fs c3ini) c3sh "/p/d/app.exe").length = 3 ∧
    fail_fast_executed_commands c3sh
      (main_command_trace (simple_fs c3ini) c3sh "/p/d/app.exe") = ["false"] ∧
    main_command_trace (simple_fs c3ini) c3sh "/p/d/app.exe" ≠
      fail_fast_executed_commands c3sh
        (main_command_trace (simple_fs c3ini) c3sh "/p/d/app.exe") := by
  refine ⟨by decide, by decide, by decide, by decide, by decide⟩

/-- C3 as amended: execution never stops at a failing command: the
exit status of every executed command is discarded, each composed command
is handed to the shell unconditionally, and the whole executed trace is
independent of the exit-status oracle. -/
theorem c3_unconditional_execution (fs : FS) (sh sh2 : String → Int) (executable : String)
    (cmds : List String) :
    run_shell_commands sh cmds = cmds ∧
    main_command_trace fs sh executable = main_command_trace fs sh2 executable := by
  refine ⟨run_shell_commands_eq sh cmds, ?_⟩
  simp only [main_command_trace]
  cases h : find_wine_prefix fs executable 15 with
  | error e => rfl
  | ok winePfx =>
    simp [run_commands_before_executable, run_commands_after_executable, run_executable,
      run_shell_commands_eq]

/-- C9 counterexample: for the symlink /links/app.exe whose canonical target
is /real/app.exe, the source resolves the executable-scope config next to
the symlink itself, not next to the target as the claim demands. -/
theorem c9_counterexample :
    c9fs.realpath "/links/app.exe" = "/real/app.exe" ∧
    find_executable_env_variables c9fs "/links/app.exe" = ["WINEDEBUG=link"] ∧
    find_executable_env_variables_per_spec c9fs "/links/app.exe" = ["WINEDEBUG=real"] ∧
    find_executable_env_variables c9fs "/links/app.exe" ≠
      find_executable_env_variables_per_spec c9fs "/links/app.exe" := by
  refine ⟨by decide, by decide, by decide, by decide⟩

/-- C9 as amended: every executable-scope operation uses the executable path
exactly as passed on the command line, never its canonicalized form: all
four executable-scope operations are invariant under changing realpath,
while prefix discovery alone canonicalizes (its start directory is the
parent of the realpath image). -/
theorem c9_raw_path_operations (fs : FS) (rp : String → String) (sh : String → Int)
    (executable : String) :
    find_executable_env_variables { fs with realpath := rp } executable =
      find_executable_env_variables fs executable ∧
    find_execution_parameters { fs with realpath := rp } executable =
      find_execution_parameters fs executable ∧
    run_commands_before_executable { fs with realpath := rp } sh executable =
      run_commands_before_executable fs sh executable ∧
    run_commands_after_executable { fs with realpath := rp } sh executable =
      run_commands_after_executable fs sh executable ∧
    exe_start_directory { fs with realpath := rp } executable =
      get_directory fs (rp executable) :=
  ⟨rfl, rfl, rfl, rfl, rfl⟩

end Wineceptor
